import Mathlib

/-!
Shallow embedding of the s3-tree-clone synchronization engine (main.go,
stat_linux.go / stat_darwin.go) together with theorems checking the
natural-language specification against it.

Conventions:
* Go machine integers are modelled as `Nat` (unsigned) or `Int` (signed),
  with explicit masks/moduli where the source performs conversions.
* The S3 object-metadata map is modelled as an association list; Go's
  two-valued map read `v, ok := m[k]` is `metaLookup`, and the one-valued
  read `m[k]` (which yields `""` for an absent key) is `metaGet`.
* Fallible operations return `Option` or `Except`.
-/

namespace STC

/-- Object metadata: string-keyed, string-valued, as stored on S3 objects. -/
abbrev Metadata := List (String × String)

/-- Go two-valued map read `v, isPresent := m[k]`. -/
def metaLookup (m : Metadata) (k : String) : Option String :=
  match m with
  | [] => none
  | (k₀, v₀) :: rest => if k₀ = k then some v₀ else metaLookup rest k

/-- Go one-valued map read `m[k]`: yields the zero value `""` when absent. -/
def metaGet (m : Metadata) (k : String) : String :=
  (metaLookup m k).getD ""

/-- Decimal digit value of a character, as recognized by `strconv.ParseUint`
for bases up to 10 (letters map to values ≥ 10 and are thus rejected for
bases 8 and 10, matching the Go behaviour). -/
def digitVal (c : Char) : Option Nat :=
  if '0' ≤ c ∧ c ≤ '9' then some (c.toNat - 48) else none

/-- Digit-consumption loop of `strconv.ParseUint` (no sign, no underscore,
no base prefix, since the source always passes an explicit base of 8 or 10). -/
def parseUintCore (base : Nat) (cs : List Char) (acc : Nat) : Option Nat :=
  match cs with
  | [] => some acc
  | c :: rest =>
    match digitVal c with
    | none => none
    | some d => if d < base then parseUintCore base rest (acc * base + d) else none

/-- `strconv.ParseUint(s, base, bitSize)`: empty strings, invalid digits and
values of at least `2^bitSize` are errors. The per-digit overflow cutoffs of
the Go loop reject a string exactly when the full value exceeds the limit,
so they are expressed as one final bound check here. -/
def parseUint (s : String) (base : Nat) (bitSize : Nat) : Option Nat :=
  match s.data with
  | [] => none
  | cs =>
    match parseUintCore base cs 0 with
    | none => none
    | some n => if n < 2 ^ bitSize then some n else none

/-! ### time.ParseDuration

`fileTimestampEqual` parses the stored timestamp with `time.ParseDuration`,
whose grammar is a possibly signed sequence of decimal numbers, each with an
optional fraction and a mandatory unit suffix (`ns`, `us`, `µs`, `μs`, `ms`,
`s`, `m`, `h`). The model below follows the Go implementation; the only
abstraction is that the fractional contribution `uint64(float64(f) *
(float64(unit) / scale))` is computed exactly as `f * unit / scale` in
unbounded arithmetic (Go uses float64, documented to be nanosecond-accurate
for every unit up to hours). -/

/-- Digit-consumption loop of `time.ParseDuration`'s `leadingInt`: consume
leading decimal digits; error when the accumulated value exceeds `2^63`. -/
def leadingIntCore (cs : List Char) (x : Nat) : Option (Nat × List Char) :=
  match cs with
  | [] => some (x, [])
  | c :: rest =>
    match digitVal c with
    | none => some (x, c :: rest)
    | some d => if x * 10 + d > 2 ^ 63 then none else leadingIntCore rest (x * 10 + d)

/-- `time.ParseDuration`'s `leadingFraction`: consume leading decimal digits
after the period, returning numerator and scale (a power of ten). -/
def leadingFractionCore (cs : List Char) (f : Nat) (scale : Nat) : Nat × Nat × List Char :=
  match cs with
  | [] => (f, scale, [])
  | c :: rest =>
    match digitVal c with
    | none => (f, scale, c :: rest)
    | some d => leadingFractionCore rest (f * 10 + d) (scale * 10)

/-- Consume the unit name: every character up to the next period or digit. -/
def takeUnitCore (cs : List Char) : List Char × List Char :=
  match cs with
  | [] => ([], [])
  | c :: rest =>
    if c = '.' ∨ (digitVal c).isSome then ([], c :: rest)
    else
      match takeUnitCore rest with
      | (u, r) => (c :: u, r)

/-- `time.ParseDuration`'s unit map, in nanoseconds per unit. -/
def durationUnitNs (u : List Char) : Option Nat :=
  if u = ['n', 's'] then some 1
  else if u = ['u', 's'] then some 1000
  else if u = ['µ', 's'] then some 1000
  else if u = ['μ', 's'] then some 1000
  else if u = ['m', 's'] then some 1000000
  else if u = ['s'] then some 1000000000
  else if u = ['m'] then some 60000000000
  else if u = ['h'] then some 3600000000000
  else none

/-- Main loop of `time.ParseDuration`: one iteration per number+unit group.
Each iteration consumes at least one character, so fuel `length + 1` never
runs out. -/
def parseDurationLoop (fuel : Nat) (cs : List Char) (d : Nat) : Option Nat :=
  match fuel with
  | 0 => none
  | fuel + 1 =>
    match cs with
    | [] => some d
    | c :: _ =>
      if ¬(c = '.' ∨ (digitVal c).isSome) then none
      else
        match leadingIntCore cs 0 with
        | none => none
        | some (v, s1) =>
          let pre : Bool := s1.length != cs.length
          let fsp : Nat × Nat × List Char × Bool :=
            match s1 with
            | '.' :: s1' =>
              match leadingFractionCore s1' 0 1 with
              | (f, scale, rest) => (f, scale, rest, rest.length != s1'.length)
            | _ => (0, 1, s1, false)
          match fsp with
          | (f, scale, s2, post) =>
            if !pre && !post then none
            else
              match takeUnitCore s2 with
              | ([], _) => none
              | (u, s3) =>
                match durationUnitNs u with
                | none => none
                | some unit =>
                  if v > 2 ^ 63 / unit then none
                  else
                    let v1 := v * unit
                    let v2 := if f > 0 then v1 + f * unit / scale else v1
                    if v2 > 2 ^ 63 then none
                    else if d + v2 > 2 ^ 63 then none
                    else parseDurationLoop fuel s3 (d + v2)

/-- `time.ParseDuration`: optional sign, special case `"0"`, then the group
loop; the result is a signed 64-bit count of nanoseconds. -/
def parseDuration (str : String) : Option Int :=
  let s := str.data
  let ns :=
    match s with
    | '-' :: rest => (true, rest)
    | '+' :: rest => (false, rest)
    | _ => (false, s)
  match ns with
  | (neg, s1) =>
    if s1 = ['0'] then some 0
    else if s1 = [] then none
    else
      match parseDurationLoop (s1.length + 1) s1 0 with
      | none => none
      | some d =>
        if neg then some (-(d : Int))
        else if d > 2 ^ 63 - 1 then none
        else some (d : Int)

/-- `fileOwnershipEqual` (main.go): the metadata value must be present, parse
as a 32-bit decimal unsigned integer, and equal the (already root-squashed)
local id. The Go `uint32(s3Owner)` conversion is the identity because
`ParseUint` was called with bitSize 32. -/
def fileOwnershipEqual (m : Metadata) (id : Nat) (ownerType : String) : Bool :=
  match metaLookup m ownerType with
  | none => false
  | some s =>
    match parseUint s 10 32 with
    | none => false
    | some s3Owner => s3Owner == id

/-- `fileTimestampEqual` (main.go): missing metadata and unparseable
durations count as "not identical"; otherwise the parsed duration must equal
the local nanosecond timestamp (`time.Duration(timestamp)` is the identity
on int64). -/
def fileTimestampEqual (m : Metadata) (timestamp : Int) (field : String) : Bool :=
  match metaLookup m field with
  | none => false
  | some s =>
    match parseDuration s with
    | none => false
    | some s3Timestamp => s3Timestamp == timestamp

/-- Snapshot of the `syscall.Stat_t` attributes the program consumes.
`ctimeNs`/`mtimeNs` are the values of `getCtime`/`getMtime`
(`Nsec + Sec*1000000000`, an int64). -/
structure Stat where
  size : Int
  mode : Nat
  uid : Nat
  gid : Nat
  ctimeNs : Int
  mtimeNs : Int
deriving DecidableEq, Repr

/-- The fields of `s3.HeadObjectOutput` the comparator consumes. -/
structure HeadObjectOutput where
  contentLength : Int
  metadata : Metadata
deriving DecidableEq, Repr

/-- The permissions check inlined in `FileMetadataEqual` (main.go lines
507-523): `file-permissions` must be present, parse as a base-8 unsigned
integer of at most 16 bits, and equal `stat.Mode & 07777`. Both values are
below `2^16`, so the Go `uint16` conversions are identities. -/
def permissionsCheck (m : Metadata) (mode : Nat) : Bool :=
  match metaLookup m "file-permissions" with
  | none => false
  | some s =>
    match parseUint s 8 16 with
    | none => false
    | some s3Perms => s3Perms == Nat.land mode 0o7777

/-- `FileMetadataEqual` (main.go): size (files only), root-squashed
ownership, permissions, then timestamps unless `-ignore-timestamps`. -/
def FileMetadataEqual (rootUID rootGID : Nat) (ignoreTimestamps : Bool)
    (hoo : HeadObjectOutput) (stat : Stat) (isDir : Bool) : Bool :=
  if ¬isDir ∧ hoo.contentLength ≠ stat.size then false
  else
    let uid := if stat.uid = 0 then rootUID else stat.uid
    let gid := if stat.gid = 0 then rootGID else stat.gid
    if ¬(fileOwnershipEqual hoo.metadata uid "file-owner"
        ∧ fileOwnershipEqual hoo.metadata gid "file-group") then false
    else if ¬permissionsCheck hoo.metadata stat.mode then false
    else if ¬ignoreTimestamps
        ∧ ¬(fileTimestampEqual hoo.metadata stat.ctimeNs "file-ctime"
            ∧ fileTimestampEqual hoo.metadata stat.mtimeNs "file-mtime") then false
    else true

/-! ### Digest engine and hash comparison -/

/-- The `Hashes` bundle (main.go): the four digests of one file, as byte
sequences (bytes are `Nat` values below 256). -/
structure Hashes where
  md5 : List Nat
  sha1 : List Nat
  sha256 : List Nat
  sha512 : List Nat
deriving DecidableEq, Repr

/-- Lower-case hexadecimal digit. -/
def hexDigit (d : Nat) : Char :=
  if d < 10 then Char.ofNat (48 + d) else Char.ofNat (87 + d)

/-- `hex.EncodeToString`: two lower-case hex digits per byte. -/
def hexEncode (bs : List Nat) : String :=
  String.mk (bs.foldr (fun b acc => hexDigit (b / 16) :: hexDigit (b % 16) :: acc) [])

/-- One iteration of the `getFileHashes` read loop: the four incremental
hashers are modelled by the byte sequences written to them so far (the
defining property of an incremental hash: `Sum` digests exactly the bytes
written). Each successfully read chunk is appended to all four. -/
def getFileHashesLoop (chunks : List (List Nat)) (a1 a2 a3 a4 : List Nat) :
    Except Unit (List Nat × List Nat × List Nat × List Nat) :=
  match chunks with
  | [] => .ok (a1, a2, a3, a4)
  | chunk :: rest =>
    if chunk.length ≤ 0 then .error ()
    else getFileHashesLoop rest (a1 ++ chunk) (a2 ++ chunk) (a3 ++ chunk) (a4 ++ chunk)

/-- `getFileHashes` (main.go): a single sequential pass over the stream,
feeding every chunk to the MD5, SHA-1, SHA-256 and SHA-512 hashers in turn,
then taking the four sums. The stream is the list of chunks successive
`Read` calls deliver (an `os.File` read yields either bytes or `io.EOF`, so
a zero-length chunk is the loop's error path). The digest algorithms
themselves are library code, abstracted as the four functions applied to
the bytes written. -/
def getFileHashes (md5F sha1F sha256F sha512F : List Nat → List Nat)
    (chunks : List (List Nat)) : Except Unit Hashes :=
  match getFileHashesLoop chunks [] [] [] [] with
  | .error e => .error e
  | .ok (a1, a2, a3, a4) => .ok ⟨md5F a1, sha1F a2, sha256F a3, sha512F a4⟩

/-- `compareFileHashes` (main.go): read the four digest keys with Go's
one-valued map read (absent ⇒ `""`); if all four are empty, skip the check
and report equal without touching the local file. Otherwise open and hash
the local file (`localFile` is the combined outcome of `os.Open` and
`getFileHashes`; `.error` aborts), and compare the strongest digest present
in the order SHA-512, SHA-256, SHA-1, MD5. -/
def compareFileHashes (hoo : HeadObjectOutput) (localFile : Except Unit Hashes) :
    Except Unit (Option Hashes × Bool) :=
  let m := hoo.metadata
  let s3SHA512 := metaGet m "sha512"
  let s3SHA256 := metaGet m "sha256"
  let s3SHA1 := metaGet m "sha1"
  let s3MD5 := metaGet m "md5"
  if s3SHA512 = "" ∧ s3SHA256 = "" ∧ s3SHA1 = "" ∧ s3MD5 = "" then .ok (none, true)
  else
    match localFile with
    | .error e => .error e
    | .ok hashes =>
      if s3SHA512 ≠ "" then .ok (some hashes, s3SHA512 == hexEncode hashes.sha512)
      else if s3SHA256 ≠ "" then .ok (some hashes, s3SHA256 == hexEncode hashes.sha256)
      else if s3SHA1 ≠ "" then .ok (some hashes, s3SHA1 == hexEncode hashes.sha1)
      else .ok (some hashes, s3MD5 == hexEncode hashes.md5)

/-- Outcome of the `HeadObject` probe in `HandleFile`: success, a `NotFound`
API error, or any other failure. -/
inductive ProbeResult where
  | found (hoo : HeadObjectOutput)
  | notFound
  | otherFailure
deriving DecidableEq, Repr

/-- What the `HandleFile` goroutine does for a regular file after the probe:
return early because hashing failed, invoke `UploadFile` (with the hashes
retained from the comparison, if any), or leave the object alone. -/
inductive FileAction where
  | errorReturn
  | upload (hashes : Option Hashes)
  | noUpload
deriving DecidableEq, Repr

/-- The regular-file branch of `HandleFile` (main.go lines 427-471): a probe
failure of either kind sets `uploadRequired` (and leaves `hoo` nil, so the
hash comparison is skipped and `UploadFile` receives nil hashes); when the
object exists, metadata inequality sets `uploadRequired`, then the hash
comparison runs: its error aborts the handler, its mismatch also sets
`uploadRequired`. -/
def handleRegularFile (rootUID rootGID : Nat) (ignoreTimestamps : Bool)
    (probe : ProbeResult) (stat : Stat) (localFile : Except Unit Hashes) : FileAction :=
  match probe with
  | .notFound => .upload none
  | .otherFailure => .upload none
  | .found hoo =>
    let uploadRequired := !FileMetadataEqual rootUID rootGID ignoreTimestamps hoo stat false
    match compareFileHashes hoo localFile with
    | .error _ => .errorReturn
    | .ok (hashes, hashesEqual) =>
      if uploadRequired || !hashesEqual then .upload hashes else .noUpload

/-! ### Uploader metadata (the Metadata Codec's encoding direction) -/

/-- Decimal or octal digit character. -/
def digitChar (d : Nat) : Char := Char.ofNat (48 + d)

/-- Digits of a natural number in the given base, most significant first;
the value strictly decreases at each division, so fuel `n + 1` always
suffices. -/
def baseDigitsAux (base : Nat) (fuel : Nat) (n : Nat) : List Char :=
  match fuel with
  | 0 => []
  | fuel + 1 =>
    if n < base then [digitChar n]
    else baseDigitsAux base fuel (n / base) ++ [digitChar (n % base)]

/-- Decimal digits of a natural number, most significant first
(`fmt.Sprintf("%d", ...)` for unsigned values). -/
def decDigits (n : Nat) : List Char := baseDigitsAux 10 (n + 1) n

/-- Octal digits of a natural number, most significant first. -/
def octDigits (n : Nat) : List Char := baseDigitsAux 8 (n + 1) n

/-- `fmt.Sprintf("%d", n)` for an unsigned integer. -/
def decFmt (n : Nat) : String := String.mk (decDigits n)

/-- `fmt.Sprintf("%d", i)` for a signed integer (the ctime/mtime int64s). -/
def intFmt (i : Int) : String :=
  if i < 0 then String.mk ('-' :: decDigits i.natAbs) else String.mk (decDigits i.natAbs)

/-- `fmt.Sprintf("%04o", n)`: octal, zero-padded to at least four digits. -/
def octal4 (n : Nat) : String :=
  String.mk (List.replicate (4 - (octDigits n).length) '0' ++ octDigits n)

/-- The metadata map built by `UploadDir` (main.go lines 588-617): owner and
group after root-squash substitution, 4-digit octal permissions, nanosecond
timestamps with an `ns` suffix, and the agent tag. -/
def uploadDirMetadata (rootUID rootGID : Nat) (stat : Stat) : Metadata :=
  let uid := if stat.uid = 0 then rootUID else stat.uid
  let gid := if stat.gid = 0 then rootGID else stat.gid
  [("file-owner", decFmt uid),
   ("file-group", decFmt gid),
   ("file-permissions", octal4 (Nat.land stat.mode 0o7777)),
   ("file-ctime", intFmt stat.ctimeNs ++ "ns"),
   ("file-mtime", intFmt stat.mtimeNs ++ "ns"),
   ("user-agent", "s3-tree-clone")]

/-- The metadata map built by `UploadFile` (main.go lines 653-715): the same
six entries built by the same code, plus the four hex-encoded digests of the
content being uploaded. -/
def uploadFileMetadata (rootUID rootGID : Nat) (stat : Stat) (hashes : Hashes) : Metadata :=
  let uid := if stat.uid = 0 then rootUID else stat.uid
  let gid := if stat.gid = 0 then rootGID else stat.gid
  [("file-owner", decFmt uid),
   ("file-group", decFmt gid),
   ("file-permissions", octal4 (Nat.land stat.mode 0o7777)),
   ("file-ctime", intFmt stat.ctimeNs ++ "ns"),
   ("file-mtime", intFmt stat.mtimeNs ++ "ns"),
   ("user-agent", "s3-tree-clone"),
   ("md5", hexEncode hashes.md5),
   ("sha1", hexEncode hashes.sha1),
   ("sha256", hexEncode hashes.sha256),
   ("sha512", hexEncode hashes.sha512)]

/-! ### Object keys: path.Join / path.Clean and SetBucketAndPrefix

`path.Join` concatenates its non-empty elements with `/` and cleans the
result; `path.Clean` applies the classic rules: collapse multiple slashes,
drop `.` elements, resolve `..` against the preceding element, and drop
`..` at the root of a rooted path. The model works on `List Char` and
splits the path into slash-free components. -/

/-- Split a character list on `/`; the separators themselves are dropped,
adjacent separators yield empty components. -/
def splitSlash (l : List Char) : List (List Char) :=
  match l with
  | [] => [[]]
  | c :: rest =>
    if c = '/' then [] :: splitSlash rest
    else
      match splitSlash rest with
      | [] => [[c]]
      | comp :: comps => (c :: comp) :: comps

/-- One `path.Clean` step: fold a component onto the stack of output
components (held in reverse order). Empty and `.` components vanish; `..`
pops a normal component, is dropped at the root of a rooted path, and is
kept when there is nothing left to pop in a relative path. -/
def cleanStep (rooted : Bool) (stack : List (List Char)) (comp : List Char) :
    List (List Char) :=
  if comp = [] ∨ comp = ['.'] then stack
  else if comp = ['.', '.'] then
    match stack with
    | top :: rest => if top = ['.', '.'] then comp :: top :: rest else rest
    | [] => if rooted then [] else [comp]
  else comp :: stack

/-- Join components with single slashes. -/
def joinSlash (comps : List (List Char)) : List Char :=
  match comps with
  | [] => []
  | [c] => c
  | c :: rest => c ++ '/' :: joinSlash rest

/-- `path.Clean` of a non-empty path (the callers below never pass `""`;
Go returns `"."` for it, handled in `pathJoin` by the empty-input case). -/
def cleanPath (l : List Char) : List Char :=
  let rooted : Bool := l.head? = some '/'
  let comps := ((splitSlash l).foldl (cleanStep rooted) []).reverse
  if rooted then '/' :: joinSlash comps
  else if comps = [] then ['.']
  else joinSlash comps

/-- `path.Join`: empty elements are ignored; if everything is empty the
result is `""`, otherwise the elements are joined with `/` and cleaned. -/
def pathJoin (elems : List (List Char)) : List Char :=
  match elems.filter (fun e => e ≠ []) with
  | [] => []
  | nonEmpty => cleanPath (joinSlash nonEmpty)

/-- The object key computed by `HandleFile` (main.go lines 407-411):
`path.Join(prefix, relPath, filename)`, with a trailing separator appended
for directories. -/
def objectKey (pfx relPath filename : List Char) (isDir : Bool) : List Char :=
  let key := pathJoin [pfx, relPath, filename]
  if isDir then key ++ ['/'] else key

/-- `strings.TrimRight(s, "/")`. -/
def trimRightSlash (l : List Char) : List Char :=
  (l.reverse.dropWhile (fun c => c = '/')).reverse

/-- Everything before the first `/`, and — when a `/` exists — everything
after it (`strings.SplitN(s, "/", 2)`). -/
def breakFirstSlash (l : List Char) : List Char × Option (List Char) :=
  match l with
  | [] => ([], none)
  | c :: rest =>
    if c = '/' then ([], some rest)
    else
      match breakFirstSlash rest with
      | (before, after) => (c :: before, after)

/-- `SetBucketAndPrefix` (main.go lines 298-318): the destination must start
with `s3://`; the bucket is everything up to the first `/`; the stored
prefix is the remainder with trailing slashes trimmed, plus one `/` if it
is non-empty. -/
def setBucketAndPfx (dest : String) : Option (List Char × List Char) :=
  match dest.data with
  | 's' :: '3' :: ':' :: '/' :: '/' :: rest =>
    match breakFirstSlash rest with
    | (bucket, none) => some (bucket, [])
    | (bucket, some after) =>
      let p := trimRightSlash after
      some (bucket, if p = [] then [] else p ++ ['/'])
  | _ => none

/-! ### The per-entry handler and the walker

The goroutine per entry returns nothing to its spawner; the model therefore
records what a handler does as a list of actions, sequentialized in spawn
order. `probe` gives each key's `HeadObject` outcome and `put` the outcome
of a marker upload (consumed only for logging in the source, so it cannot
influence control flow). -/

/-- The run-scoped configuration consumed by the handlers. -/
structure SyncConfig where
  rootUID : Nat
  rootGID : Nat
  ignoreTimestamps : Bool
  pfx : List Char
deriving Repr

/-- A node of the local tree as the handler observes it: `os.Stat` failure,
a non-regular non-directory entry, a regular file (with the outcome of
opening and hashing it), or a directory with its listed children. -/
inductive FsNode where
  | statFailed
  | special
  | file (st : Stat) (contents : Except Unit Hashes)
  | dir (st : Stat) (entries : List (String × FsNode))
deriving Repr

deriving instance DecidableEq for Except

/-- Backend calls and walker entries a handler performs. -/
inductive Action where
  | uploadFile (key : List Char) (hashes : Option Hashes)
  | uploadDirMarker (key : List Char) (putResult : Except Unit Unit)
  | enterDir (subdirRel : List Char)
deriving DecidableEq, Repr

mutual
/-- `HandleFile` (main.go lines 382-482): stat failures and non-regular
entries produce nothing; a regular file runs `handleRegularFile` and emits
its upload if one is required; a directory uploads a marker if required and
then always walks its children under the extended relative path. -/
def handleFileModel (cfg : SyncConfig) (probe : List Char → ProbeResult)
    (put : List Char → Except Unit Unit) (relPath : List Char)
    (filename : List Char) (node : FsNode) : List Action :=
  match node with
  | .statFailed => []
  | .special => []
  | .file st contents =>
    let key := objectKey cfg.pfx relPath filename false
    match handleRegularFile cfg.rootUID cfg.rootGID cfg.ignoreTimestamps
        (probe key) st contents with
    | .errorReturn => []
    | .noUpload => []
    | .upload hashes => [.uploadFile key hashes]
  | .dir st entries =>
    let key := objectKey cfg.pfx relPath filename true
    let uploadRequired :=
      match probe key with
      | .notFound => true
      | .otherFailure => true
      | .found hoo => !FileMetadataEqual cfg.rootUID cfg.rootGID cfg.ignoreTimestamps hoo st true
    let subdirRel := pathJoin [relPath, filename]
    (if uploadRequired then [.uploadDirMarker key (put key)] else [])
      ++ .enterDir subdirRel :: walkDirectoryModel cfg probe put subdirRel entries

/-- `WalkDirectory` (main.go lines 347-380) with an empty name filter: one
handler per listed entry, in listing order. -/
def walkDirectoryModel (cfg : SyncConfig) (probe : List Char → ProbeResult)
    (put : List Char → Except Unit Unit) (relPath : List Char)
    (entries : List (String × FsNode)) : List Action :=
  match entries with
  | [] => []
  | (name, node) :: rest =>
    handleFileModel cfg probe put relPath name.data node
      ++ walkDirectoryModel cfg probe put relPath rest
end

/-! ### The run function's exit code -/

/-- Per-entry events during the walk. `run` never observes them: the
handler goroutines return nothing, and `run` only waits on the WaitGroup. -/
inductive EntryOutcome where
  | statFailure
  | skippedSpecial
  | probeOtherFailure
  | probeNotFound
  | digestFailure
  | uploadFailure
  | subdirReadFailure
  | uploaded
  | inSync
deriving DecidableEq, Repr

/-- The storage classes `run` accepts. -/
def validStorageClasses : List String :=
  ["STANDARD", "STANDARD_IA", "ONEZONE_IA", "INTELLIGENT_TIERING", "GLACIER",
   "DEEP_ARCHIVE", "OUTPOSTS"]

/-- The flag values and positional arguments of one invocation. -/
structure RunArgs where
  helpFlag : Bool
  storageClass : String
  encAlg : String
  maxRetries : Int
  maxBackoffDelayStr : String
  rootSquash : Bool
  checkBucket : Bool
  posArgs : List String
deriving Repr

/-- Outcomes of the effectful setup steps `run` performs, in program
order. `clientInjected` is true when a test passes its own S3 client, which
skips credential loading and bucket-location reconfiguration. -/
structure ExtOutcomes where
  flagParseOk : Bool
  nfsNobody : Option (Nat × Nat)
  clientInjected : Bool
  awsConfigOk : Bool
  bucketLocOk : Bool
  sourceDirOpens : Bool
  rootWalkOk : Bool
deriving Repr

/-- The exit code of `run` (main.go lines 78-257), following the source's
check order. Everything after a successful initial `WalkDirectory` is
`waitGroup.Wait()` followed by `return 0`; the per-entry outcomes are not
consulted anywhere. -/
def runExitCode (a : RunArgs) (ext : ExtOutcomes) (_perEntry : List EntryOutcome) : Nat :=
  if ¬ext.flagParseOk then 1
  else if a.helpFlag then 0
  else
    match a.posArgs with
    | [] => 2
    | [_] => 2
    | _ :: dest :: rest =>
      if rest ≠ [] then 2
      else if (setBucketAndPfx dest).isNone then 2
      else if ¬validStorageClasses.contains a.storageClass then 1
      else if a.encAlg ≠ "AES256" ∧ a.encAlg ≠ "aws:kms" then 1
      else if a.maxRetries < 0 then 1
      else if a.maxRetries > 0
          ∧ ¬(∃ d, parseDuration a.maxBackoffDelayStr = some d ∧ 0 < d) then 1
      else if a.rootSquash ∧ ext.nfsNobody = none then 1
      else if ¬ext.clientInjected ∧ ¬ext.awsConfigOk then 1
      else if ¬ext.clientInjected ∧ a.checkBucket ∧ ¬ext.bucketLocOk then 1
      else if ¬ext.sourceDirOpens then 1
      else if ¬ext.rootWalkOk then 1
      else 0

/-! ### Spec-side predicates and statement vocabulary -/

/-- An octal digit (`0` through `7`). -/
def isOctDigitB (c : Char) : Bool := decide ('0' ≤ c) && decide (c ≤ '7')

/-- Value of a sequence of octal digit characters, most significant first. -/
def octValueOfDigits (cs : List Char) : Nat :=
  cs.foldl (fun a c => a * 8 + (c.toNat - 48)) 0

/-- The permissions rule as the spec claims it: the metadata value must be
a 4-digit octal string decoding to the mode's low 12 bits. Stated from the
spec's words, to be compared against `permissionsCheck` from the source. -/
def permCheckSpec (m : Metadata) (mode : Nat) : Bool :=
  match metaLookup m "file-permissions" with
  | none => false
  | some s =>
    (s.data.length == 4) && s.data.all isOctDigitB
      && (octValueOfDigits s.data == Nat.land mode 0o7777)

/-- No two adjacent characters are both `/` (no doubled separator). -/
def noDoubleSepB (l : List Char) : Bool :=
  match l with
  | a :: b :: rest => !(a == '/' && b == '/') && noDoubleSepB (b :: rest)
  | _ => true

/-- The list ends with a `/` that is not preceded by another `/`. -/
def endsInSingleSlashB (l : List Char) : Bool :=
  match l.getLast?, l.dropLast.getLast? with
  | some '/', some c => !(c == '/')
  | some '/', none => true
  | _, _ => false

/-- A well-formed path component: non-empty and free of separators. -/
def goodComp (c : List Char) : Prop := c ≠ [] ∧ '/' ∉ c

/-! ## Sanity checks of the embedded library models against documented
Go behaviour. -/

example : parseDuration "1s" = some 1000000000 := by decide
example : parseDuration "1m30s" = some 90000000000 := by decide
example : parseDuration "1000000000ns" = some 1000000000 := by decide
example : parseDuration "1.5s" = some 1500000000 := by decide
example : parseDuration "-2us" = some (-2000) := by decide
example : parseDuration "0" = some 0 := by decide
example : parseDuration "1" = none := by decide
example : parseDuration "s" = none := by decide
example : parseDuration ".5s" = some 500000000 := by decide
example : String.mk (pathJoin ["pfx/".data, "a/b".data, "c".data]) = "pfx/a/b/c" := by decide
example : String.mk (cleanPath "a//b".data) = "a/b" := by decide
example : String.mk (cleanPath "/x/..".data) = "/" := by decide
example : String.mk (cleanPath "x/..".data) = "." := by decide
example : String.mk (cleanPath "../../a".data) = "../../a" := by decide
example : String.mk (objectKey [] [] "d1".data true) = "d1/" := by decide
example : String.mk (objectKey "p/".data "a".data "f.txt".data false) = "p/a/f.txt" := by decide
example : setBucketAndPfx "s3://hello" = some ("hello".data, []) := by decide
example : setBucketAndPfx "s3://b/p" = some ("b".data, "p/".data) := by decide
example : setBucketAndPfx "s3://b/p//" = some ("b".data, "p/".data) := by decide
example : setBucketAndPfx "not-an-s3-url" = none := by decide
example : octal4 0o755 = "0755" := by decide
example : decFmt 65534 = "65534" := by decide
example : hexEncode [0xd4, 0x1d] = "d41d" := by decide
example : parseUint "0755" 8 16 = some 493 := by decide
example : parseUint "755" 8 16 = some 493 := by decide
example : parseUint "65534" 10 32 = some 65534 := by decide
example : parseUint "" 10 32 = none := by decide
example : parseUint "+7" 10 32 = none := by decide

/-! ## Lemmas about `strconv.ParseUint` -/

/-- `parseUintCore` in base 8 succeeds exactly on all-octal-digit input and
computes the base-8 value. -/
theorem parseUintCore_oct (cs : List Char) (acc : Nat) :
    parseUintCore 8 cs acc =
      if cs.all isOctDigitB then
        some (cs.foldl (fun a c => a * 8 + (c.toNat - 48)) acc)
      else none := by
  induction cs generalizing acc with
  | nil => simp [parseUintCore]
  | cons c rest ih =>
    simp only [List.all_cons, List.foldl_cons]
    unfold parseUintCore digitVal
    by_cases h0 : '0' ≤ c
    · by_cases h7 : c ≤ '7'
      · have h9 : c ≤ '9' := le_trans h7 (by decide)
        have h55 : c.toNat ≤ 55 := by
          have := Char.le_def.mp h7
          simpa using this
        have hd : c.toNat - 48 < 8 := by omega
        have hoct : isOctDigitB c = true := by
          simp [isOctDigitB, h0, h7]
        simp [h0, h9, hd, ih, hoct]
      · have hoct : isOctDigitB c = false := by
          simp [isOctDigitB, h7]
        by_cases h9 : c ≤ '9'
        · have h56 : 56 ≤ c.toNat := by
            have : ¬ c.toNat ≤ ('7' : Char).toNat := fun hh => h7 (Char.le_def.mpr hh)
            simp at this
            omega
          have hd : ¬ (c.toNat - 48 < 8) := by omega
          simp [h0, h9, hd, hoct]
        · simp [h0, h9, hoct]
    · have hoct : isOctDigitB c = false := by simp [isOctDigitB, h0]
      simp [h0, hoct]

/-- `strconv.ParseUint(s, 8, 16)` succeeds exactly on non-empty all-octal
strings whose value fits in 16 bits. -/
theorem parseUint_oct (s : String) :
    parseUint s 8 16 =
      if s.data ≠ [] ∧ s.data.all isOctDigitB = true ∧ octValueOfDigits s.data < 2 ^ 16
      then some (octValueOfDigits s.data) else none := by
  unfold parseUint octValueOfDigits
  cases hs : s.data with
  | nil => simp
  | cons c cs =>
    dsimp only
    rw [parseUintCore_oct]
    by_cases hoct : (c :: cs).all isOctDigitB
    · rw [if_pos hoct]
      dsimp only
      by_cases hlt : (c :: cs).foldl (fun a c => a * 8 + (c.toNat - 48)) 0 < 2 ^ 16
      · rw [if_pos hlt, if_pos ⟨by simp, hoct, hlt⟩]
      · rw [if_neg hlt, if_neg (fun h => hlt h.2.2)]
    · rw [if_neg (by simpa using hoct), if_neg (by simp [hoct])]

/-- C4 (amended): the permissions check passes iff `file-permissions` is
present and holds a non-empty string of octal digits — of any length, not
only four — whose value equals the local mode masked to the low 12 bits.
Missing or unparseable values fail the check. -/
theorem permissionsCheck_iff_octal (m : Metadata) (mode : Nat) :
    permissionsCheck m mode = true ↔
      ∃ s, metaLookup m "file-permissions" = some s ∧ s.data ≠ []
        ∧ s.data.all isOctDigitB = true
        ∧ octValueOfDigits s.data = Nat.land mode 0o7777 := by
  unfold permissionsCheck
  cases hl : metaLookup m "file-permissions" with
  | none => simp
  | some s =>
    dsimp only
    rw [parseUint_oct]
    by_cases hc : s.data ≠ [] ∧ s.data.all isOctDigitB = true ∧ octValueOfDigits s.data < 2 ^ 16
    · rw [if_pos hc]
      dsimp only
      simp only [beq_iff_eq]
      constructor
      · intro h
        exact ⟨s, rfl, hc.1, hc.2.1, h⟩
      · rintro ⟨s', h1, _, _, h4⟩
        injection h1 with h1
        subst h1
        exact h4
    · rw [if_neg hc]
      dsimp only
      constructor
      · intro h; cases h
      · rintro ⟨s', h1, h2, h3, h4⟩
        injection h1 with h1
        subst h1
        have hb : Nat.land mode 0o7777 ≤ 0o7777 := Nat.and_le_right
        exact absurd ⟨h2, h3, by omega⟩ hc

/-- C4 (counterexample): the metadata value `"755"` is not a 4-digit octal
string, yet the source's permissions check accepts it for mode `0o755`,
refuting the claimed "iff ... 4-digit octal string". -/
theorem permissionsCheck_counterexample_755 :
    permissionsCheck [("file-permissions", "755")] 0o755 = true
      ∧ permCheckSpec [("file-permissions", "755")] 0o755 = false := by
  decide

/-! ## Decimal formatting round-trips (for the root-squash claim) -/

/-- `parseUintCore` over a concatenation: parse the first part, then
continue from its value. -/
theorem parseUintCore_append (b : Nat) (xs ys : List Char) (acc : Nat) :
    parseUintCore b (xs ++ ys) acc =
      match parseUintCore b xs acc with
      | none => none
      | some v => parseUintCore b ys v := by
  induction xs generalizing acc with
  | nil => simp [parseUintCore]
  | cons c rest ih =>
    simp only [List.cons_append]
    conv_lhs => rw [parseUintCore]
    conv_rhs => rw [parseUintCore]
    cases hd : digitVal c with
    | none => rfl
    | some d =>
      dsimp only
      by_cases hb : d < b
      · rw [if_pos hb, if_pos hb, ih]
      · rw [if_neg hb, if_neg hb]

/-- Formatting then parsing a decimal digit is the identity. -/
theorem digitVal_digitChar (d : Nat) (h : d < 10) : digitVal (digitChar d) = some d := by
  interval_cases d <;> decide

/-- Parsing the decimal digits of `n` starting from accumulator `acc`. -/
theorem baseDigitsAux_parse (fuel n acc : Nat) (h : n < fuel) :
    parseUintCore 10 (baseDigitsAux 10 fuel n) acc =
      some (acc * 10 ^ (baseDigitsAux 10 fuel n).length + n) := by
  induction fuel generalizing n acc with
  | zero => omega
  | succ fuel ih =>
    unfold baseDigitsAux
    by_cases h10 : n < 10
    · rw [if_pos h10]
      simp [parseUintCore, digitVal_digitChar n h10, h10]
    · rw [if_neg h10]
      rw [parseUintCore_append]
      have hn : n / 10 < fuel := by omega
      rw [ih (n / 10) acc hn]
      dsimp only
      have hm : n % 10 < 10 := Nat.mod_lt _ (by omega)
      simp only [parseUintCore, digitVal_digitChar _ hm, hm, if_pos]
      rw [List.length_append]
      have e1 : (acc * 10 ^ (baseDigitsAux 10 fuel (n / 10)).length + n / 10) * 10 + n % 10
          = acc * (10 ^ (baseDigitsAux 10 fuel (n / 10)).length * 10) + (n / 10 * 10 + n % 10) := by
        ring
      have e2 : n / 10 * 10 + n % 10 = n := by omega
      rw [e1, e2]
      simp [pow_succ]

/-- Parsing back the decimal rendering of `n` yields `n`. -/
theorem parseUintCore_decDigits (n : Nat) : parseUintCore 10 (decDigits n) 0 = some n := by
  have h := baseDigitsAux_parse (n + 1) n 0 (by omega)
  simpa [decDigits] using h

/-- The decimal rendering is never empty. -/
theorem decDigits_ne_nil (n : Nat) : decDigits n ≠ [] := by
  unfold decDigits baseDigitsAux
  by_cases h10 : n < 10
  · simp [h10]
  · simp [h10]

/-- `strconv.ParseUint` inverts `fmt.Sprintf("%d", ...)` for 32-bit values. -/
theorem parseUint_decFmt (n : Nat) (h : n < 2 ^ 32) :
    parseUint (decFmt n) 10 32 = some n := by
  unfold parseUint decFmt
  cases hd : decDigits n with
  | nil => exact absurd hd (decDigits_ne_nil n)
  | cons c cs =>
    dsimp only
    rw [← hd, parseUintCore_decDigits]
    have h' : n < 4294967296 := by norm_num at h; exact h
    simp [h']

/-- The decimal rendering of `n` is `"0"` only for `n = 0`. -/
theorem decFmt_eq_zero_iff (n : Nat) : decFmt n = "0" ↔ n = 0 := by
  constructor
  · intro h
    have hd : decDigits n = ['0'] := by
      have := congrArg String.data h
      simpa [decFmt] using this
    have := parseUintCore_decDigits n
    rw [hd] at this
    simpa [parseUintCore, digitVal] using this.symm
  · intro h; subst h; decide

/-- The comparator's per-id check accepts a metadata entry holding exactly
the decimal rendering of the id. -/
theorem fileOwnershipEqual_of_lookup (m : Metadata) (id : Nat) (k : String)
    (hl : metaLookup m k = some (decFmt id)) (hb : id < 2 ^ 32) :
    fileOwnershipEqual m id k = true := by
  unfold fileOwnershipEqual
  rw [hl]
  dsimp only
  rw [parseUint_decFmt id hb]
  simp

/-- C3: root-squash substitution is applied identically in the comparison
and upload paths. The id the comparator expects (`FileMetadataEqual`'s
`if uid = 0 then rootUID else uid`) is the id whose decimal rendering both
`UploadFile` and `UploadDir` store in `file-owner`/`file-group`, and the
comparator accepts exactly that stored value; with root-squash enabled
(non-zero substitute) a local id 0 is stored as the substitute and never as
`"0"`, while with root-squash disabled (`rootUID`/`rootGID` left 0, as when
`-root-squash` is not given) id 0 is stored unchanged as `"0"`. -/
theorem root_squash_consistency (rootUID rootGID : Nat) (st : Stat) (h : Hashes)
    (hu : st.uid < 2 ^ 32) (hg : st.gid < 2 ^ 32)
    (hru : rootUID < 2 ^ 32) (hrg : rootGID < 2 ^ 32) :
    (metaGet (uploadFileMetadata rootUID rootGID st h) "file-owner"
        = decFmt (if st.uid = 0 then rootUID else st.uid))
    ∧ (metaGet (uploadDirMetadata rootUID rootGID st) "file-owner"
        = decFmt (if st.uid = 0 then rootUID else st.uid))
    ∧ (metaGet (uploadFileMetadata rootUID rootGID st h) "file-group"
        = decFmt (if st.gid = 0 then rootGID else st.gid))
    ∧ (metaGet (uploadDirMetadata rootUID rootGID st) "file-group"
        = decFmt (if st.gid = 0 then rootGID else st.gid))
    ∧ fileOwnershipEqual (uploadFileMetadata rootUID rootGID st h)
        (if st.uid = 0 then rootUID else st.uid) "file-owner" = true
    ∧ fileOwnershipEqual (uploadDirMetadata rootUID rootGID st)
        (if st.uid = 0 then rootUID else st.uid) "file-owner" = true
    ∧ fileOwnershipEqual (uploadFileMetadata rootUID rootGID st h)
        (if st.gid = 0 then rootGID else st.gid) "file-group" = true
    ∧ fileOwnershipEqual (uploadDirMetadata rootUID rootGID st)
        (if st.gid = 0 then rootGID else st.gid) "file-group" = true
    ∧ (st.uid = 0 → rootUID ≠ 0 →
        metaGet (uploadFileMetadata rootUID rootGID st h) "file-owner" = decFmt rootUID
        ∧ metaGet (uploadDirMetadata rootUID rootGID st) "file-owner" = decFmt rootUID
        ∧ metaGet (uploadFileMetadata rootUID rootGID st h) "file-owner" ≠ "0")
    ∧ (st.gid = 0 → rootGID ≠ 0 →
        metaGet (uploadFileMetadata rootUID rootGID st h) "file-group" = decFmt rootGID
        ∧ metaGet (uploadDirMetadata rootUID rootGID st) "file-group" = decFmt rootGID
        ∧ metaGet (uploadFileMetadata rootUID rootGID st h) "file-group" ≠ "0")
    ∧ (st.uid = 0 → rootUID = 0 →
        metaGet (uploadFileMetadata rootUID rootGID st h) "file-owner" = "0"
        ∧ metaGet (uploadDirMetadata rootUID rootGID st) "file-owner" = "0")
    ∧ (st.gid = 0 → rootGID = 0 →
        metaGet (uploadFileMetadata rootUID rootGID st h) "file-group" = "0"
        ∧ metaGet (uploadDirMetadata rootUID rootGID st) "file-group" = "0") := by
  have hfo : metaLookup (uploadFileMetadata rootUID rootGID st h) "file-owner"
      = some (decFmt (if st.uid = 0 then rootUID else st.uid)) := by
    simp [uploadFileMetadata, metaLookup]
  have hfg : metaLookup (uploadFileMetadata rootUID rootGID st h) "file-group"
      = some (decFmt (if st.gid = 0 then rootGID else st.gid)) := by
    simp [uploadFileMetadata, metaLookup]
  have hdo : metaLookup (uploadDirMetadata rootUID rootGID st) "file-owner"
      = some (decFmt (if st.uid = 0 then rootUID else st.uid)) := by
    simp [uploadDirMetadata, metaLookup]
  have hdg : metaLookup (uploadDirMetadata rootUID rootGID st) "file-group"
      = some (decFmt (if st.gid = 0 then rootGID else st.gid)) := by
    simp [uploadDirMetadata, metaLookup]
  have hub : (if st.uid = 0 then rootUID else st.uid) < 2 ^ 32 := by
    split <;> assumption
  have hgb : (if st.gid = 0 then rootGID else st.gid) < 2 ^ 32 := by
    split <;> assumption
  have gfo : metaGet (uploadFileMetadata rootUID rootGID st h) "file-owner"
      = decFmt (if st.uid = 0 then rootUID else st.uid) := by simp [metaGet, hfo]
  have gfg : metaGet (uploadFileMetadata rootUID rootGID st h) "file-group"
      = decFmt (if st.gid = 0 then rootGID else st.gid) := by simp [metaGet, hfg]
  have gdo : metaGet (uploadDirMetadata rootUID rootGID st) "file-owner"
      = decFmt (if st.uid = 0 then rootUID else st.uid) := by simp [metaGet, hdo]
  have gdg : metaGet (uploadDirMetadata rootUID rootGID st) "file-group"
      = decFmt (if st.gid = 0 then rootGID else st.gid) := by simp [metaGet, hdg]
  refine ⟨gfo, gdo, gfg, gdg,
    fileOwnershipEqual_of_lookup _ _ _ hfo hub,
    fileOwnershipEqual_of_lookup _ _ _ hdo hub,
    fileOwnershipEqual_of_lookup _ _ _ hfg hgb,
    fileOwnershipEqual_of_lookup _ _ _ hdg hgb,
    ?_, ?_, ?_, ?_⟩
  · intro h0 hne
    rw [gfo, gdo, h0, if_pos rfl]
    exact ⟨rfl, rfl, fun e => hne ((decFmt_eq_zero_iff rootUID).mp e)⟩
  · intro h0 hne
    rw [gfg, gdg, h0, if_pos rfl]
    exact ⟨rfl, rfl, fun e => hne ((decFmt_eq_zero_iff rootGID).mp e)⟩
  · intro h0 hz
    rw [gfo, gdo, h0, hz, if_pos rfl]
    exact ⟨by decide, by decide⟩
  · intro h0 hz
    rw [gfg, gdg, h0, hz, if_pos rfl]
    exact ⟨by decide, by decide⟩

/-- Witness for C3: a root-owned file under root-squash to uid/gid 65534 is
stored with owner `"65534"`, the comparator accepts that stored value for
the substituted id, and the stored owner is not `"0"`. -/
theorem root_squash_consistency_witness :
    metaGet (uploadFileMetadata 65534 65534 ⟨5, 420, 0, 0, 7, 9⟩ ⟨[], [], [], []⟩)
        "file-owner" = "65534"
    ∧ fileOwnershipEqual (uploadFileMetadata 65534 65534 ⟨5, 420, 0, 0, 7, 9⟩ ⟨[], [], [], []⟩)
        65534 "file-owner" = true
    ∧ metaGet (uploadFileMetadata 65534 65534 ⟨5, 420, 0, 0, 7, 9⟩ ⟨[], [], [], []⟩)
        "file-owner" ≠ "0" := by
  have hth := root_squash_consistency 65534 65534 ⟨5, 420, 0, 0, 7, 9⟩ ⟨[], [], [], []⟩
    (by decide) (by decide) (by decide) (by decide)
  refine ⟨?_, ?_, ?_⟩
  · rw [hth.1]; decide
  · exact hth.2.2.2.2.1
  · rw [hth.1]; decide

/-! ## Timestamp comparison (C10) -/

/-- C10: the timestamp check parses the stored value with
`time.ParseDuration`'s general syntax and compares the parsed duration to
the local nanosecond timestamp, so any duration string denoting the same
span compares equal; `"1s"` matches a local timestamp of 1000000000 ns, and
the format is not restricted to a decimal integer with an `ns` suffix. -/
theorem timestamp_general_duration :
    (∀ (m : Metadata) (ts : Int) (field : String),
      fileTimestampEqual m ts field = true ↔
        ∃ s, metaLookup m field = some s ∧ parseDuration s = some ts)
    ∧ fileTimestampEqual [("file-mtime", "1s")] 1000000000 "file-mtime" = true
    ∧ fileTimestampEqual [("file-ctime", "1m30s")] 90000000000 "file-ctime" = true
    ∧ fileTimestampEqual [("file-mtime", "1000000000ns")] 1000000000 "file-mtime" = true
    ∧ parseDuration "1.5ms" = some 1500000 := by
  refine ⟨?_, by decide, by decide, by decide, by decide⟩
  intro m ts field
  unfold fileTimestampEqual
  cases hl : metaLookup m field with
  | none => simp
  | some s =>
    dsimp only
    cases hp : parseDuration s with
    | none => simp [hp]
    | some d =>
      simp only [beq_iff_eq]
      constructor
      · intro h; exact ⟨s, rfl, by rw [hp, h]⟩
      · rintro ⟨s', h1, h2⟩
        injection h1 with h1
        subst h1
        rw [hp] at h2
        injection h2

/-! ## Digest engine (C8) -/

/-- The read loop accumulates exactly the stream's bytes, in order, into
all four hashers. -/
theorem getFileHashesLoop_join (chunks : List (List Nat)) (a1 a2 a3 a4 : List Nat)
    (hne : ∀ c ∈ chunks, c ≠ []) :
    getFileHashesLoop chunks a1 a2 a3 a4
      = .ok (a1 ++ chunks.flatten, a2 ++ chunks.flatten, a3 ++ chunks.flatten, a4 ++ chunks.flatten) := by
  induction chunks generalizing a1 a2 a3 a4 with
  | nil => simp [getFileHashesLoop]
  | cons chunk rest ih =>
    have hc : chunk ≠ [] := hne chunk (by simp)
    have hlen : ¬ chunk.length ≤ 0 := by
      simp only [Nat.le_zero, List.length_eq_zero]
      exact hc
    unfold getFileHashesLoop
    rw [if_neg hlen, ih _ _ _ _ (fun c hm => hne c (by simp [hm]))]
    simp [List.append_assoc]

/-- C8: for every byte stream (delivered as non-empty read chunks), the
digest engine returns the four digest functions applied to the full
concatenated contents — each hasher sees every byte exactly once, in one
sequential pass — matching the reference digests of the whole stream. -/
theorem digest_engine_reference (md5F sha1F sha256F sha512F : List Nat → List Nat)
    (chunks : List (List Nat)) (hne : ∀ c ∈ chunks, c ≠ []) :
    getFileHashes md5F sha1F sha256F sha512F chunks
      = .ok ⟨md5F chunks.flatten, sha1F chunks.flatten, sha256F chunks.flatten, sha512F chunks.flatten⟩ := by
  unfold getFileHashes
  rw [getFileHashesLoop_join chunks [] [] [] [] hne]
  simp

/-- Witness for C8: a two-chunk stream with the identity as digest
function: every field is the concatenation of the chunks. -/
theorem digest_engine_reference_witness :
    getFileHashes (fun l => l) (fun l => l) (fun l => l) (fun l => l) [[1], [2, 3]]
      = .ok ⟨[1, 2, 3], [1, 2, 3], [1, 2, 3], [1, 2, 3]⟩ := by
  exact digest_engine_reference (fun l => l) (fun l => l) (fun l => l) (fun l => l)
    [[1], [2, 3]] (by decide)

/-! ## Hash selection and the content-digest override (C1) -/

/-- C1: for a regular file whose remote object exists and whose local hash
bundle was computed, the comparator selects the strongest digest present in
the order SHA-512, SHA-256, SHA-1, MD5; when none is present the content
check is skipped and the verdict comes from the metadata checks alone; and
a mismatch on the selected digest forces upload even when all metadata
checks pass. -/
theorem hash_selection_strongest_first (hoo : HeadObjectOutput) (st : Stat)
    (rootUID rootGID : Nat) (its : Bool) (h : Hashes) :
    (metaGet hoo.metadata "sha512" ≠ "" →
      compareFileHashes hoo (.ok h)
        = .ok (some h, metaGet hoo.metadata "sha512" == hexEncode h.sha512))
    ∧ (metaGet hoo.metadata "sha512" = "" → metaGet hoo.metadata "sha256" ≠ "" →
      compareFileHashes hoo (.ok h)
        = .ok (some h, metaGet hoo.metadata "sha256" == hexEncode h.sha256))
    ∧ (metaGet hoo.metadata "sha512" = "" → metaGet hoo.metadata "sha256" = "" →
        metaGet hoo.metadata "sha1" ≠ "" →
      compareFileHashes hoo (.ok h)
        = .ok (some h, metaGet hoo.metadata "sha1" == hexEncode h.sha1))
    ∧ (metaGet hoo.metadata "sha512" = "" → metaGet hoo.metadata "sha256" = "" →
        metaGet hoo.metadata "sha1" = "" → metaGet hoo.metadata "md5" ≠ "" →
      compareFileHashes hoo (.ok h)
        = .ok (some h, metaGet hoo.metadata "md5" == hexEncode h.md5))
    ∧ (metaGet hoo.metadata "sha512" = "" → metaGet hoo.metadata "sha256" = "" →
        metaGet hoo.metadata "sha1" = "" → metaGet hoo.metadata "md5" = "" →
      handleRegularFile rootUID rootGID its (.found hoo) st (.ok h)
        = if FileMetadataEqual rootUID rootGID its hoo st false then .noUpload
          else .upload none)
    ∧ (FileMetadataEqual rootUID rootGID its hoo st false = true →
        compareFileHashes hoo (.ok h) = .ok (some h, false) →
        handleRegularFile rootUID rootGID its (.found hoo) st (.ok h) = .upload (some h)) := by
  refine ⟨?_, ?_, ?_, ?_, ?_, ?_⟩
  · intro h1
    simp [compareFileHashes, h1]
  · intro h1 h2
    simp [compareFileHashes, h1, h2]
  · intro h1 h2 h3
    simp [compareFileHashes, h1, h2, h3]
  · intro h1 h2 h3 h4
    simp [compareFileHashes, h1, h2, h3, h4]
  · intro h1 h2 h3 h4
    have hcmp : compareFileHashes hoo (.ok h) = .ok (none, true) := by
      simp [compareFileHashes, h1, h2, h3, h4]
    unfold handleRegularFile
    dsimp only
    rw [hcmp]
    cases hm : FileMetadataEqual rootUID rootGID its hoo st false <;> simp
  · intro hm hcmp
    unfold handleRegularFile
    dsimp only
    rw [hcmp, hm]
    simp

/-- Witness for C1: remote metadata whose size, ownership, permissions and
timestamps all match the local stat, carrying only an MD5 digest `"00"`
that differs from the local file's MD5 `"01"`: the verdict is must-upload,
with the computed bundle retained. -/
theorem hash_selection_strongest_first_witness :
    FileMetadataEqual 0 0 false
        ⟨5, [("file-owner", "1000"), ("file-group", "1000"),
             ("file-permissions", "0644"), ("file-ctime", "7ns"),
             ("file-mtime", "9ns"), ("md5", "00")]⟩
        ⟨5, 420, 1000, 1000, 7, 9⟩ false = true
    ∧ handleRegularFile 0 0 false
        (.found ⟨5, [("file-owner", "1000"), ("file-group", "1000"),
                     ("file-permissions", "0644"), ("file-ctime", "7ns"),
                     ("file-mtime", "9ns"), ("md5", "00")]⟩)
        ⟨5, 420, 1000, 1000, 7, 9⟩ (.ok ⟨[1], [], [], []⟩)
      = .upload (some ⟨[1], [], [], []⟩) := by
  refine ⟨by decide, ?_⟩
  exact (hash_selection_strongest_first
      ⟨5, [("file-owner", "1000"), ("file-group", "1000"),
           ("file-permissions", "0644"), ("file-ctime", "7ns"),
           ("file-mtime", "9ns"), ("md5", "00")]⟩
      ⟨5, 420, 1000, 1000, 7, 9⟩ 0 0 false ⟨[1], [], [], []⟩).2.2.2.2.2
    (by decide) (by decide)

/-! ## Empty digest values behave like absent keys (C9) -/

/-- Go map read through a cons cell. -/
theorem metaGet_cons (k₀ v₀ : String) (m : Metadata) (k : String) :
    metaGet ((k₀, v₀) :: m) k = if k₀ = k then v₀ else metaGet m k := by
  unfold metaGet
  conv_lhs => rw [metaLookup]
  split <;> rfl

/-- C9: an empty-string digest value is treated exactly like an absent key:
prepending a digest key with value `""` to metadata that lacks that key
changes nothing about the hash comparison, and when all four digest values
read as empty the verification is skipped with verdict "equal", without
consulting the local file at all (the result holds for every `localFile`
outcome and carries no hash bundle). -/
theorem empty_digest_like_absent :
    (∀ (cl : Int) (m : Metadata) (lf : Except Unit Hashes) (k : String),
      (k = "sha512" ∨ k = "sha256" ∨ k = "sha1" ∨ k = "md5") →
      metaLookup m k = none →
      compareFileHashes ⟨cl, (k, "") :: m⟩ lf = compareFileHashes ⟨cl, m⟩ lf)
    ∧ (∀ (cl : Int) (m : Metadata) (lf : Except Unit Hashes),
      metaGet m "sha512" = "" → metaGet m "sha256" = "" →
      metaGet m "sha1" = "" → metaGet m "md5" = "" →
      compareFileHashes ⟨cl, m⟩ lf = .ok (none, true)) := by
  constructor
  · intro cl m lf k hk hnone
    have hget : metaGet m k = "" := by simp [metaGet, hnone]
    have h512 : metaGet ((k, "") :: m) "sha512" = metaGet m "sha512" := by
      rw [metaGet_cons]
      rcases hk with rfl | rfl | rfl | rfl <;> simp [hget]
    have h256 : metaGet ((k, "") :: m) "sha256" = metaGet m "sha256" := by
      rw [metaGet_cons]
      rcases hk with rfl | rfl | rfl | rfl <;> simp [hget]
    have h1 : metaGet ((k, "") :: m) "sha1" = metaGet m "sha1" := by
      rw [metaGet_cons]
      rcases hk with rfl | rfl | rfl | rfl <;> simp [hget]
    have hmd5 : metaGet ((k, "") :: m) "md5" = metaGet m "md5" := by
      rw [metaGet_cons]
      rcases hk with rfl | rfl | rfl | rfl <;> simp [hget]
    simp only [compareFileHashes, h512, h256, h1, hmd5]
  · intro cl m lf h1 h2 h3 h4
    simp [compareFileHashes, h1, h2, h3, h4]

/-- Witness for C9: with only an empty `sha1` value present, the comparison
behaves exactly as with no digest keys at all, and is skipped as "equal"
even though the local file could not be read. -/
theorem empty_digest_like_absent_witness :
    compareFileHashes ⟨0, [("sha1", "")]⟩ (.error ())
        = compareFileHashes ⟨0, []⟩ (.error ())
    ∧ compareFileHashes ⟨0, [("sha1", "")]⟩ (.error ()) = .ok (none, true) := by
  refine ⟨empty_digest_like_absent.1 0 [] (.error ()) "sha1" (by simp) (by decide), ?_⟩
  exact empty_digest_like_absent.2 0 [("sha1", "")] (.error ())
    (by decide) (by decide) (by decide) (by decide)

/-! ## Fail-open behaviour of the per-entry handler (C2) -/

/-- C2 (amended): a metadata probe failure — not-found or any other error —
is treated as must-upload and `UploadFile` is invoked (with no retained
hashes); but when the remote object exists and the local file cannot be
opened or hashed during the comparison, the handler logs and returns
without attempting the upload, even if the metadata checks had already
required one. -/
theorem probe_failure_uploads_hash_failure_returns :
    (∀ (r g : Nat) (its : Bool) (st : Stat) (lf : Except Unit Hashes),
      handleRegularFile r g its .notFound st lf = .upload none)
    ∧ (∀ (r g : Nat) (its : Bool) (st : Stat) (lf : Except Unit Hashes),
      handleRegularFile r g its .otherFailure st lf = .upload none)
    ∧ (∀ (r g : Nat) (its : Bool) (st : Stat) (lf : Except Unit Hashes)
        (hoo : HeadObjectOutput),
      compareFileHashes hoo lf = .error () →
      handleRegularFile r g its (.found hoo) st lf = .errorReturn) := by
  refine ⟨fun _ _ _ _ _ => rfl, fun _ _ _ _ _ => rfl, ?_⟩
  intro r g its st lf hoo hcmp
  unfold handleRegularFile
  dsimp only
  rw [hcmp]

/-- Witness for C2 (amended): a concrete metadata-probe outcome carrying an
MD5 digest together with an unreadable local file makes the handler return
without uploading. -/
theorem probe_failure_uploads_hash_failure_returns_witness :
    handleRegularFile 0 0 false .otherFailure ⟨5, 420, 1000, 1000, 7, 9⟩ (.error ())
        = .upload none
    ∧ handleRegularFile 0 0 false (.found ⟨5, [("md5", "00")]⟩)
        ⟨5, 420, 1000, 1000, 7, 9⟩ (.error ()) = .errorReturn := by
  refine ⟨probe_failure_uploads_hash_failure_returns.2.1 0 0 false
      ⟨5, 420, 1000, 1000, 7, 9⟩ (.error ()), ?_⟩
  exact probe_failure_uploads_hash_failure_returns.2.2 0 0 false
    ⟨5, 420, 1000, 1000, 7, 9⟩ (.error ()) ⟨5, [("md5", "00")]⟩ (by decide)

/-- C2 (counterexample): the claim says a failure to open or hash the local
file during hash comparison still results in an attempted upload; but with
the remote object present (carrying an MD5 digest) and the local file
unreadable, the handler emits no action at all — the entry is skipped, not
uploaded. -/
theorem fail_open_counterexample :
    handleFileModel ⟨65534, 65534, false, []⟩
        (fun _ => .found ⟨5, [("md5", "00")]⟩) (fun _ => .ok ())
        [] ("f.txt".data) (.file ⟨5, 420, 1000, 1000, 7, 9⟩ (.error ()))
      = [] := by
  have hact : handleRegularFile 65534 65534 false
      (.found ⟨5, [("md5", "00")]⟩) ⟨5, 420, 1000, 1000, 7, 9⟩ (.error ())
      = .errorReturn := by decide
  simp [handleFileModel, hact]

/-! ## Object-key invariants (C5) -/

/-- Splitting never produces the empty component list. -/
theorem splitSlash_ne_nil (l : List Char) : splitSlash l ≠ [] := by
  cases l with
  | nil => simp [splitSlash]
  | cons c rest =>
    unfold splitSlash
    by_cases h : c = '/'
    · simp [h]
    · rw [if_neg h]
      cases splitSlash rest <;> simp

/-- Every component produced by splitting is free of separators. -/
theorem splitSlash_no_slash (l : List Char) : ∀ comp ∈ splitSlash l, '/' ∉ comp := by
  induction l with
  | nil =>
    intro comp hc
    simp only [splitSlash, List.mem_singleton] at hc
    simp [hc]
  | cons c rest ih =>
    intro comp hc
    unfold splitSlash at hc
    by_cases h : c = '/'
    · rw [if_pos h] at hc
      rcases List.mem_cons.mp hc with rfl | hm
      · simp
      · exact ih comp hm
    · rw [if_neg h] at hc
      cases hsp : splitSlash rest with
      | nil => exact absurd hsp (splitSlash_ne_nil rest)
      | cons comp0 comps =>
        rw [hsp] at hc
        rcases List.mem_cons.mp hc with rfl | hm
        · intro hmem
          rcases List.mem_cons.mp hmem with he | hmem0
          · exact h he.symm
          · exact ih comp0 (by rw [hsp]; exact List.mem_cons_self _ _) hmem0
        · exact ih comp (by rw [hsp]; exact List.mem_cons_of_mem _ hm)

/-- A clean step keeps every stack entry non-empty and separator-free. -/
theorem cleanStep_good (rooted : Bool) (stack : List (List Char)) (comp : List Char)
    (hs : ∀ x ∈ stack, goodComp x) (hc : '/' ∉ comp) :
    ∀ x ∈ cleanStep rooted stack comp, goodComp x := by
  intro x hx
  unfold cleanStep at hx
  by_cases h1 : comp = [] ∨ comp = ['.']
  · rw [if_pos h1] at hx
    exact hs x hx
  · rw [if_neg h1] at hx
    by_cases h2 : comp = ['.', '.']
    · rw [if_pos h2] at hx
      cases stack with
      | nil =>
        dsimp only at hx
        by_cases hr : rooted = true
        · rw [hr, if_pos rfl] at hx
          simp at hx
        · rw [if_neg (by simpa using hr)] at hx
          rcases List.mem_singleton.mp hx with rfl
          exact ⟨by simp [h2], by simp [h2]⟩
      | cons top rest =>
        dsimp only at hx
        by_cases h3 : top = ['.', '.']
        · rw [if_pos h3] at hx
          rcases List.mem_cons.mp hx with rfl | hx'
          · exact ⟨by simp [h2], by simp [h2]⟩
          · exact hs x hx'
        · rw [if_neg h3] at hx
          exact hs x (List.mem_cons_of_mem _ hx)
    · rw [if_neg h2] at hx
      rcases List.mem_cons.mp hx with rfl | hx'
      · exact ⟨fun he => h1 (Or.inl he), hc⟩
      · exact hs x hx'

/-- Folding clean steps over separator-free components keeps the stack
well-formed. -/
theorem foldl_cleanStep_good (rooted : Bool) (comps : List (List Char)) :
    ∀ (stack : List (List Char)), (∀ x ∈ stack, goodComp x) →
    (∀ c ∈ comps, '/' ∉ c) →
    ∀ x ∈ comps.foldl (cleanStep rooted) stack, goodComp x := by
  induction comps with
  | nil =>
    intro stack hs _ x hx
    simpa using hs x hx
  | cons c rest ih =>
    intro stack hs hc x hx
    simp only [List.foldl_cons] at hx
    exact ih (cleanStep rooted stack c)
      (cleanStep_good rooted stack c hs (hc c (by simp)))
      (fun d hd => hc d (by simp [hd])) x hx

/-- Joining non-empty components yields a non-empty list. -/
theorem joinSlash_ne_nil (comps : List (List Char)) (h : comps ≠ [])
    (hg : ∀ x ∈ comps, goodComp x) : joinSlash comps ≠ [] := by
  cases comps with
  | nil => exact absurd rfl h
  | cons c rest =>
    have hc : c ≠ [] := (hg c (by simp)).1
    cases rest with
    | nil => simpa [joinSlash] using hc
    | cons c' rest' => simp [joinSlash, hc]

/-- The first character of a join of well-formed components is never a
separator. -/
theorem joinSlash_head_ne_slash (comps : List (List Char))
    (hg : ∀ x ∈ comps, goodComp x) :
    ∀ ch, (joinSlash comps).head? = some ch → ch ≠ '/' := by
  intro ch hch
  cases comps with
  | nil => simp [joinSlash] at hch
  | cons c rest =>
    have hgc : goodComp c := hg c (by simp)
    have hhd : (joinSlash (c :: rest)).head? = c.head? := by
      cases rest with
      | nil => rfl
      | cons c' rest' =>
        show (c ++ '/' :: joinSlash (c' :: rest')).head? = c.head?
        exact List.head?_append_of_ne_nil _ hgc.1
    rw [hhd] at hch
    exact fun he => hgc.2 (he ▸ List.mem_of_mem_head? hch)

/-- A separator-free list has no doubled separator. -/
theorem chain'_of_no_slash (c : List Char) (h : '/' ∉ c) :
    c.Chain' (fun a b => ¬(a = '/' ∧ b = '/')) := by
  induction c with
  | nil => simp
  | cons a rest ih =>
    rw [List.chain'_cons']
    refine ⟨?_, ih (fun hm => h (List.mem_cons_of_mem _ hm))⟩
    intro y _ hab
    exact h (hab.1 ▸ List.mem_cons_self _ _)

/-- A join of well-formed components has no doubled separator. -/
theorem chain'_joinSlash (comps : List (List Char))
    (hg : ∀ x ∈ comps, goodComp x) :
    (joinSlash comps).Chain' (fun a b => ¬(a = '/' ∧ b = '/')) := by
  induction comps with
  | nil => simp [joinSlash]
  | cons c rest ih =>
    have hgc : goodComp c := hg c (by simp)
    have hcs : ∀ x ∈ rest, goodComp x := fun x hx => hg x (by simp [hx])
    cases rest with
    | nil => exact chain'_of_no_slash c hgc.2
    | cons c' rest' =>
      show (c ++ '/' :: joinSlash (c' :: rest')).Chain' _
      rw [List.chain'_append]
      refine ⟨chain'_of_no_slash c hgc.2, ?_, ?_⟩
      · rw [List.chain'_cons']
        refine ⟨?_, ih hcs⟩
        intro y hy hab
        exact joinSlash_head_ne_slash (c' :: rest') hcs y hy hab.2
      · intro x hx y _ hab
        exact hgc.2 (hab.1 ▸ List.mem_of_mem_getLast? hx)

/-- The join of well-formed components ends with the last character of the
last component. -/
theorem joinSlash_getLast (comps : List (List Char))
    (hg : ∀ x ∈ comps, goodComp x) (c : List Char)
    (hlast : comps.getLast? = some c) :
    (joinSlash comps).getLast? = c.getLast? := by
  induction comps with
  | nil => simp at hlast
  | cons c0 rest ih =>
    have hcs : ∀ x ∈ rest, goodComp x := fun x hx => hg x (by simp [hx])
    cases rest with
    | nil =>
      simp only [List.getLast?_singleton] at hlast
      injection hlast with hlast
      subst hlast
      rfl
    | cons c1 rest' =>
      have hlast' : (c1 :: rest').getLast? = some c :=
        (List.getLast?_cons_cons ..).symm.trans hlast
      have hjs : joinSlash (c1 :: rest') ≠ [] :=
        joinSlash_ne_nil _ (by simp) hcs
      show (c0 ++ '/' :: joinSlash (c1 :: rest')).getLast? = c.getLast?
      rw [List.getLast?_append_of_ne_nil _ (by simp)]
      cases hj : joinSlash (c1 :: rest') with
      | nil => exact absurd hj hjs
      | cons j js =>
        rw [List.getLast?_cons_cons, ← hj, ih hcs hlast']

/-- The executable no-doubled-separator predicate coincides with the
chain formulation. -/
theorem noDoubleSepB_iff (l : List Char) :
    noDoubleSepB l = true ↔ l.Chain' (fun a b => ¬(a = '/' ∧ b = '/')) := by
  induction l with
  | nil => simp [noDoubleSepB]
  | cons a rest ih =>
    cases rest with
    | nil => simp [noDoubleSepB]
    | cons b rest' =>
      rw [noDoubleSepB, List.chain'_cons, Bool.and_eq_true, ← ih]
      have hb : (!(a == '/' && b == '/')) = true ↔ ¬(a = '/' ∧ b = '/') := by
        simp
        tauto
      rw [hb]

/-- `path.Clean` never produces a doubled separator, for any input. -/
theorem cleanPath_chain' (l : List Char) :
    (cleanPath l).Chain' (fun a b => ¬(a = '/' ∧ b = '/')) := by
  unfold cleanPath
  have hgood : ∀ x ∈ (((splitSlash l).foldl (cleanStep (l.head? = some '/' : Bool)) []).reverse),
      goodComp x := by
    intro x hx
    exact foldl_cleanStep_good _ (splitSlash l) [] (by simp)
      (splitSlash_no_slash l) x (List.mem_reverse.mp hx)
  by_cases hr : (l.head? = some '/' : Bool) = true
  · rw [if_pos hr]
    rw [List.chain'_cons']
    refine ⟨?_, chain'_joinSlash _ hgood⟩
    intro y hy hab
    exact joinSlash_head_ne_slash _ hgood y hy hab.2
  · rw [if_neg hr]
    by_cases hc : ((splitSlash l).foldl (cleanStep (l.head? = some '/' : Bool)) []).reverse = []
    · rw [if_pos hc]
      simp
    · rw [if_neg hc]
      exact chain'_joinSlash _ hgood

/-- C5 helper: splitting a separator-free list yields that single
component. -/
theorem splitSlash_single (fn : List Char) (h : '/' ∉ fn) :
    splitSlash fn = [fn] := by
  induction fn with
  | nil => rfl
  | cons c rest ih =>
    have hc : c ≠ '/' := fun he => h (he ▸ List.mem_cons_self _ _)
    unfold splitSlash
    rw [if_neg (fun he => hc he)]
    rw [ih (fun hm => h (List.mem_cons_of_mem _ hm))]

/-- One-step equation for `splitSlash` on a cons cell. -/
theorem splitSlash_cons (c : Char) (rest : List Char) :
    splitSlash (c :: rest) =
      if c = '/' then [] :: splitSlash rest
      else
        match splitSlash rest with
        | [] => [[c]]
        | comp :: comps => (c :: comp) :: comps := rfl

/-- Splitting distributes over a separator between two halves. -/
theorem splitSlash_sep_append (xs ys : List Char) :
    splitSlash (xs ++ '/' :: ys) = splitSlash xs ++ splitSlash ys := by
  induction xs with
  | nil =>
    show splitSlash ('/' :: ys) = [[]] ++ splitSlash ys
    rw [splitSlash_cons, if_pos rfl]
    rfl
  | cons c rest ih =>
    show splitSlash (c :: (rest ++ '/' :: ys)) = splitSlash (c :: rest) ++ splitSlash ys
    rw [splitSlash_cons, splitSlash_cons]
    by_cases hc : c = '/'
    · rw [if_pos hc, if_pos hc, ih]
      rfl
    · rw [if_neg hc, if_neg hc, ih]
      cases hsp : splitSlash rest with
      | nil => exact absurd hsp (splitSlash_ne_nil rest)
      | cons comp comps => rfl

/-- Joining after appending one more non-empty component appends a
separator and that component. -/
theorem joinSlash_concat (xs : List (List Char)) (fn : List Char) (h : xs ≠ []) :
    joinSlash (xs ++ [fn]) = joinSlash xs ++ '/' :: fn := by
  induction xs with
  | nil => exact absurd rfl h
  | cons c rest ih =>
    cases rest with
    | nil => rfl
    | cons c' rest' =>
      show joinSlash (c :: (c' :: rest') ++ [fn]) = (c ++ '/' :: joinSlash (c' :: rest')) ++ '/' :: fn
      have : joinSlash (c :: ((c' :: rest') ++ [fn]))
          = c ++ '/' :: joinSlash ((c' :: rest') ++ [fn]) := rfl
      rw [List.cons_append, this, ih (by simp)]
      simp

/-- A clean step on a normal component pushes it. -/
theorem cleanStep_normal (rooted : Bool) (stack : List (List Char)) (comp : List Char)
    (h1 : comp ≠ []) (h2 : comp ≠ ['.']) (h3 : comp ≠ ['.', '.']) :
    cleanStep rooted stack comp = comp :: stack := by
  unfold cleanStep
  rw [if_neg (by tauto), if_neg h3]

/-- When the final path component is a normal name, `path.Clean` is
non-empty and ends with that name's last character — in particular not with
a separator. -/
theorem cleanPath_last (j fn : List Char) (pre : List (List Char))
    (hfn : fn ≠ []) (hs : '/' ∉ fn) (hd1 : fn ≠ ['.']) (hd2 : fn ≠ ['.', '.'])
    (hsp : splitSlash j = pre ++ [fn]) :
    cleanPath j ≠ [] ∧ ∀ ch, (cleanPath j).getLast? = some ch → ch ≠ '/' := by
  have hfold : (splitSlash j).foldl (cleanStep (j.head? = some '/' : Bool)) []
      = fn :: (pre.foldl (cleanStep (j.head? = some '/' : Bool)) []) := by
    rw [hsp, List.foldl_append]
    simp only [List.foldl_cons, List.foldl_nil]
    exact cleanStep_normal _ _ fn hfn hd1 hd2
  have hgood : ∀ x ∈ (((splitSlash j).foldl (cleanStep (j.head? = some '/' : Bool)) []).reverse),
      goodComp x := by
    intro x hx
    exact foldl_cleanStep_good _ (splitSlash j) [] (by simp)
      (splitSlash_no_slash j) x (List.mem_reverse.mp hx)
  have hrev : (((splitSlash j).foldl (cleanStep (j.head? = some '/' : Bool)) []).reverse)
      = (pre.foldl (cleanStep (j.head? = some '/' : Bool)) []).reverse ++ [fn] := by
    rw [hfold, List.reverse_cons]
  have hlast : (((splitSlash j).foldl (cleanStep (j.head? = some '/' : Bool)) []).reverse).getLast?
      = some fn := by
    rw [hrev]
    exact List.getLast?_concat _
  have hne : (((splitSlash j).foldl (cleanStep (j.head? = some '/' : Bool)) []).reverse) ≠ [] := by
    rw [hrev]; simp
  have hjlast : (joinSlash (((splitSlash j).foldl (cleanStep (j.head? = some '/' : Bool)) []).reverse)).getLast?
      = fn.getLast? := joinSlash_getLast _ hgood fn hlast
  have hjne : joinSlash (((splitSlash j).foldl (cleanStep (j.head? = some '/' : Bool)) []).reverse) ≠ [] :=
    joinSlash_ne_nil _ hne hgood
  have hfnlast : ∀ ch, fn.getLast? = some ch → ch ≠ '/' := by
    intro ch hch he
    exact hs (he ▸ List.mem_of_mem_getLast? hch)
  unfold cleanPath
  by_cases hr : (j.head? = some '/' : Bool) = true
  · rw [if_pos hr]
    refine ⟨by simp, ?_⟩
    intro ch hch
    cases hj : joinSlash (((splitSlash j).foldl (cleanStep (j.head? = some '/' : Bool)) []).reverse) with
    | nil => exact absurd hj hjne
    | cons j0 js =>
      rw [hj, List.getLast?_cons_cons] at hch
      rw [hj] at hjlast
      exact hfnlast ch (hjlast ▸ hch)
  · rw [if_neg hr, if_neg hne]
    exact ⟨hjne, fun ch hch => hfnlast ch (hjlast ▸ hch)⟩

/-- `path.Join(prefix, relPath, filename)` for a non-empty separator-free
filename is the clean of a path whose final component is that filename. -/
theorem pathJoin_cleanPath (pfx rel fn : List Char) (hfn : fn ≠ []) (hs : '/' ∉ fn) :
    ∃ j pre, pathJoin [pfx, rel, fn] = cleanPath j ∧ splitSlash j = pre ++ [fn] := by
  by_cases hp : pfx = [] <;> by_cases hr : rel = []
  · refine ⟨fn, [], ?_, by simpa using splitSlash_single fn hs⟩
    subst hp; subst hr
    have hfil : [([] : List Char), [], fn].filter (fun e => e ≠ []) = [fn] := by
      simp [hfn]
    unfold pathJoin
    rw [hfil]
    rfl
  · refine ⟨rel ++ '/' :: fn, splitSlash rel, ?_,
      by rw [splitSlash_sep_append, splitSlash_single fn hs]⟩
    subst hp
    have hfil : [([] : List Char), rel, fn].filter (fun e => e ≠ []) = [rel, fn] := by
      simp [hfn, hr]
    unfold pathJoin
    rw [hfil]
    rfl
  · refine ⟨pfx ++ '/' :: fn, splitSlash pfx, ?_,
      by rw [splitSlash_sep_append, splitSlash_single fn hs]⟩
    subst hr
    have hfil : [pfx, ([] : List Char), fn].filter (fun e => e ≠ []) = [pfx, fn] := by
      simp [hfn, hp]
    unfold pathJoin
    rw [hfil]
    rfl
  · refine ⟨pfx ++ '/' :: (rel ++ '/' :: fn), splitSlash pfx ++ splitSlash rel, ?_, ?_⟩
    · have hfil : [pfx, rel, fn].filter (fun e => e ≠ []) = [pfx, rel, fn] := by
        simp [hfn, hp, hr]
      unfold pathJoin
      rw [hfil]
      rfl
    · rw [splitSlash_sep_append, splitSlash_sep_append, splitSlash_single fn hs,
        List.append_assoc]

/-- Appending one separator to a list that does not end in a separator
yields a list ending in exactly one separator. -/
theorem endsInSingleSlashB_concat (key : List Char)
    (h : ∀ ch, key.getLast? = some ch → ch ≠ '/') :
    endsInSingleSlashB (key ++ ['/']) = true := by
  unfold endsInSingleSlashB
  rw [List.getLast?_concat, List.dropLast_concat]
  cases hk : key.getLast? with
  | none => rfl
  | some ch =>
    have hch := h ch hk
    simp [hch]

/-- The head of `dropWhile` never satisfies the dropped predicate. -/
theorem dropWhile_head_not (p : Char → Bool) (l : List Char) :
    ∀ ch, (l.dropWhile p).head? = some ch → p ch = false := by
  induction l with
  | nil => intro ch h; simp [List.dropWhile] at h
  | cons c rest ih =>
    intro ch h
    rw [List.dropWhile_cons] at h
    by_cases hc : p c = true
    · rw [if_pos hc] at h
      exact ih ch h
    · rw [if_neg hc] at h
      injection h with h
      subst h
      simpa using hc

/-- `strings.TrimRight(s, "/")` never ends in a separator. -/
theorem trimRightSlash_last (l : List Char) :
    ∀ ch, (trimRightSlash l).getLast? = some ch → ch ≠ '/' := by
  intro ch h
  unfold trimRightSlash at h
  rw [List.getLast?_reverse] at h
  have hp := dropWhile_head_not (fun c => c = '/') l.reverse ch h
  simpa using hp

/-- C5: for every dispatched entry — whose name, coming from
`Readdirnames`, is non-empty, separator-free and neither `.` nor `..` — the
computed object key contains no doubled separator; the key of a directory
entry ends with exactly one trailing separator; and the prefix stored by
`SetBucketAndPrefix` is either empty or ends with exactly one separator. -/
theorem object_key_invariants :
    (∀ (pfx relPath fn : List Char) (isDir : Bool),
      fn ≠ [] → '/' ∉ fn → fn ≠ ['.'] → fn ≠ ['.', '.'] →
      noDoubleSepB (objectKey pfx relPath fn isDir) = true)
    ∧ (∀ (pfx relPath fn : List Char),
      fn ≠ [] → '/' ∉ fn → fn ≠ ['.'] → fn ≠ ['.', '.'] →
      endsInSingleSlashB (objectKey pfx relPath fn true) = true)
    ∧ (∀ (dest : String) (bucket p : List Char),
      setBucketAndPfx dest = some (bucket, p) →
      p = [] ∨ endsInSingleSlashB p = true) := by
  have hkey : ∀ (pfx relPath fn : List Char),
      fn ≠ [] → '/' ∉ fn → fn ≠ ['.'] → fn ≠ ['.', '.'] →
      (pathJoin [pfx, relPath, fn]).Chain' (fun a b => ¬(a = '/' ∧ b = '/'))
      ∧ ∀ ch, (pathJoin [pfx, relPath, fn]).getLast? = some ch → ch ≠ '/' := by
    intro pfx relPath fn hfn hs hd1 hd2
    obtain ⟨j, pre, hj, hsp⟩ := pathJoin_cleanPath pfx relPath fn hfn hs
    rw [hj]
    exact ⟨cleanPath_chain' j, (cleanPath_last j fn pre hfn hs hd1 hd2 hsp).2⟩
  refine ⟨?_, ?_, ?_⟩
  · intro pfx relPath fn isDir hfn hs hd1 hd2
    obtain ⟨hchain, hlast⟩ := hkey pfx relPath fn hfn hs hd1 hd2
    rw [noDoubleSepB_iff]
    cases isDir with
    | false => exact hchain
    | true =>
      show ((pathJoin [pfx, relPath, fn]) ++ ['/']).Chain' _
      rw [List.chain'_append]
      refine ⟨hchain, by simp, ?_⟩
      intro x hx y hy hab
      exact hlast x hx hab.1
  · intro pfx relPath fn hfn hs hd1 hd2
    exact endsInSingleSlashB_concat _ (hkey pfx relPath fn hfn hs hd1 hd2).2
  · intro dest bucket p h
    unfold setBucketAndPfx at h
    split at h
    · rename_i rest heq
      cases hbf : breakFirstSlash rest with
      | mk before after =>
        rw [hbf] at h
        cases after with
        | none =>
          dsimp only at h
          injection h with h
          injection h with h1 h2
          exact Or.inl h2.symm
        | some aft =>
          dsimp only at h
          injection h with h
          injection h with h1 h2
          by_cases hp : trimRightSlash aft = []
          · rw [if_pos hp] at h2
            exact Or.inl h2.symm
          · rw [if_neg hp] at h2
            refine Or.inr ?_
            rw [← h2]
            exact endsInSingleSlashB_concat _ (trimRightSlash_last aft)
    · exact absurd h (by simp)

/-- Witness for C5: concrete prefix `p/`, relative path `a` and name
`f.txt`: the file key has no doubled separator, the directory key ends in
exactly one separator, and the prefix normalized from `s3://b/p//` ends in
exactly one separator. -/
theorem object_key_invariants_witness :
    noDoubleSepB (objectKey ("p/".data) ("a".data) ("f.txt".data) false) = true
    ∧ endsInSingleSlashB (objectKey ("p/".data) ("a".data) ("f.txt".data) true) = true
    ∧ ("p/".data = [] ∨ endsInSingleSlashB ("p/".data) = true) := by
  refine ⟨object_key_invariants.1 ("p/".data) ("a".data) ("f.txt".data) false
      (by decide) (by decide) (by decide) (by decide),
    object_key_invariants.2.1 ("p/".data) ("a".data) ("f.txt".data)
      (by decide) (by decide) (by decide) (by decide),
    object_key_invariants.2.2 "s3://b/p//" ("b".data) ("p/".data) (by decide)⟩

/-! ## Unconditional recursion after a directory marker (C7) -/

/-- C7: for every directory entry, the handler's action list is an optional
marker-upload attempt followed by entering the walker for that subdirectory
and handling all of its children — the walker entry and the children's
actions are present and identical for every outcome `put` assigns to the
marker upload, so the recursion happens whether that upload succeeded or
failed; and whenever the probe fails or the marker metadata differs, the
marker upload is attempted first. -/
theorem dir_handler_always_recurses (cfg : SyncConfig) (probe : List Char → ProbeResult)
    (put : List Char → Except Unit Unit) (relPath filename : List Char)
    (st : Stat) (entries : List (String × FsNode)) :
    ∃ pre,
      handleFileModel cfg probe put relPath filename (.dir st entries)
        = pre ++ Action.enterDir (pathJoin [relPath, filename])
            :: walkDirectoryModel cfg probe put (pathJoin [relPath, filename]) entries
      ∧ (pre = [] ∨ pre = [.uploadDirMarker (objectKey cfg.pfx relPath filename true)
            (put (objectKey cfg.pfx relPath filename true))])
      ∧ ((probe (objectKey cfg.pfx relPath filename true) = .notFound
          ∨ probe (objectKey cfg.pfx relPath filename true) = .otherFailure
          ∨ (∃ hoo, probe (objectKey cfg.pfx relPath filename true) = .found hoo
              ∧ FileMetadataEqual cfg.rootUID cfg.rootGID cfg.ignoreTimestamps hoo st true
                  = false)) →
        pre = [.uploadDirMarker (objectKey cfg.pfx relPath filename true)
            (put (objectKey cfg.pfx relPath filename true))]) := by
  cases hpr : probe (objectKey cfg.pfx relPath filename true) with
  | notFound =>
    refine ⟨[.uploadDirMarker (objectKey cfg.pfx relPath filename true)
        (put (objectKey cfg.pfx relPath filename true))], ?_, Or.inr rfl, fun _ => rfl⟩
    simp [handleFileModel, hpr]
  | otherFailure =>
    refine ⟨[.uploadDirMarker (objectKey cfg.pfx relPath filename true)
        (put (objectKey cfg.pfx relPath filename true))], ?_, Or.inr rfl, fun _ => rfl⟩
    simp [handleFileModel, hpr]
  | found hoo =>
    by_cases hm : FileMetadataEqual cfg.rootUID cfg.rootGID cfg.ignoreTimestamps hoo st true
        = true
    · refine ⟨[], ?_, Or.inl rfl, ?_⟩
      · simp [handleFileModel, hpr, hm]
      · rintro (hc | hc | ⟨hoo', hc, hfme⟩)
        · cases hc
        · cases hc
        · injection hc with hc
          subst hc
          rw [hm] at hfme
          cases hfme
    · refine ⟨[.uploadDirMarker (objectKey cfg.pfx relPath filename true)
          (put (objectKey cfg.pfx relPath filename true))], ?_, Or.inr rfl, fun _ => rfl⟩
      simp [handleFileModel, hpr, hm]

/-! ## Best-effort exit code and the empty-directory run (C6) -/

/-- C6: when the configuration passes every validation step, the client is
set up, the source root opens and its initial walk succeeds, `run` returns
exit code 0 — for every list of per-entry outcomes, which `run` never
consults (the handler goroutines return nothing and `run` merely awaits
the WaitGroup); and walking an empty directory dispatches no handlers, so
an empty source tree performs zero uploads. -/
theorem run_exit_zero_best_effort :
    (∀ (a : RunArgs) (ext : ExtOutcomes) (perEntry : List EntryOutcome) (src dest : String),
      ext.flagParseOk = true → a.helpFlag = false →
      a.posArgs = [src, dest] → (setBucketAndPfx dest).isSome →
      validStorageClasses.contains a.storageClass = true →
      (a.encAlg = "AES256" ∨ a.encAlg = "aws:kms") →
      0 ≤ a.maxRetries →
      (0 < a.maxRetries → ∃ d, parseDuration a.maxBackoffDelayStr = some d ∧ 0 < d) →
      (a.rootSquash = true → ext.nfsNobody ≠ none) →
      (ext.clientInjected = false → ext.awsConfigOk = true) →
      (ext.clientInjected = false → a.checkBucket = true → ext.bucketLocOk = true) →
      ext.sourceDirOpens = true → ext.rootWalkOk = true →
      runExitCode a ext perEntry = 0)
    ∧ (∀ (cfg : SyncConfig) (probe : List Char → ProbeResult)
        (put : List Char → Except Unit Unit) (relPath : List Char),
      walkDirectoryModel cfg probe put relPath [] = []) := by
  constructor
  · intro a ext perEntry src dest hparse hhelp hargs hdest hsc henc hretry hback hnfs
      haws hbucket hsrc hwalk
    unfold runExitCode
    rw [if_neg (by simp [hparse]), if_neg (by simp [hhelp]), hargs]
    dsimp only
    rw [if_neg (by simp)]
    rw [if_neg (by simp [Option.isNone_iff_eq_none]; intro hn; rw [hn] at hdest; cases hdest)]
    rw [if_neg (not_not_intro hsc)]
    rw [if_neg (by rcases henc with he | he <;> simp [he])]
    rw [if_neg (by omega)]
    rw [if_neg ?hback]
    case hback =>
      rintro ⟨hpos, hnex⟩
      exact hnex (hback hpos)
    rw [if_neg ?hnfs]
    case hnfs =>
      rintro ⟨hz, hn⟩
      exact (hnfs hz) hn
    rw [if_neg ?haws]
    case haws =>
      rintro ⟨h1, h2⟩
      exact h2 (haws (by simpa using h1))
    rw [if_neg ?hbucket]
    case hbucket =>
      rintro ⟨h1, h2, h3⟩
      exact h3 (hbucket (by simpa using h1) h2)
    rw [if_neg (by simp [hsrc]), if_neg (by simp [hwalk])]
  · intro cfg probe put relPath
    simp [walkDirectoryModel]

/-- Witness for C6: a concrete valid configuration with an injected test
client, a run in which entries failed in every possible way, and an empty
directory listing: exit code 0 and no dispatched actions. -/
theorem run_exit_zero_best_effort_witness :
    runExitCode
        ⟨false, "STANDARD", "AES256", 10, "60s", false, true, [".", "s3://hello"]⟩
        ⟨true, none, true, false, false, true, true⟩
        [.statFailure, .probeOtherFailure, .digestFailure, .uploadFailure,
         .subdirReadFailure] = 0
    ∧ walkDirectoryModel ⟨0, 0, false, []⟩ (fun _ => .notFound) (fun _ => .ok ()) [] [] = [] := by
  refine ⟨?_, run_exit_zero_best_effort.2 ⟨0, 0, false, []⟩ (fun _ => .notFound)
    (fun _ => .ok ()) []⟩
  exact run_exit_zero_best_effort.1
    ⟨false, "STANDARD", "AES256", 10, "60s", false, true, [".", "s3://hello"]⟩
    ⟨true, none, true, false, false, true, true⟩
    [.statFailure, .probeOtherFailure, .digestFailure, .uploadFailure, .subdirReadFailure]
    "." "s3://hello"
    (by decide) (by decide) (by decide) (by decide) (by decide)
    (Or.inl rfl) (by decide)
    (fun _ => ⟨60000000000, by decide, by decide⟩)
    (by decide) (fun h => by cases h) (fun h => by cases h)
    (by decide) (by decide)

/-- Witness for C4 (amended): a standard 4-digit value still passes. -/
theorem permissionsCheck_iff_octal_witness :
    permissionsCheck [("file-permissions", "0644")] 420 = true := by
  exact (permissionsCheck_iff_octal [("file-permissions", "0644")] 420).mpr
    ⟨"0644", by decide, by decide, by decide, by decide⟩

/-- Witness for C10: a microsecond-denominated value passes against the
equivalent nanosecond timestamp. -/
theorem timestamp_general_duration_witness :
    fileTimestampEqual [("file-ctime", "2us")] 2000 "file-ctime" = true := by
  exact (timestamp_general_duration.1 [("file-ctime", "2us")] 2000 "file-ctime").mpr
    ⟨"2us", by decide, by decide⟩

/-- Witness for C7: for a concrete empty directory whose object is absent,
the handler's actions contain the walker entry after the marker attempt. -/
theorem dir_handler_always_recurses_witness :
    Action.enterDir ("d".data) ∈
      handleFileModel ⟨0, 0, false, []⟩ (fun _ => .notFound) (fun _ => .ok ())
        [] ("d".data) (.dir ⟨0, 493, 0, 0, 0, 0⟩ []) := by
  obtain ⟨pre, heq, _, _⟩ := dir_handler_always_recurses ⟨0, 0, false, []⟩
    (fun _ => .notFound) (fun _ => .ok ()) [] ("d".data) ⟨0, 493, 0, 0, 0, 0⟩ []
  rw [heq]
  have hpj : pathJoin [([] : List Char), "d".data] = "d".data := by decide
  rw [hpj]
  exact List.mem_append_right _ (List.mem_cons_self _ _)

end STC
